import Mathlib

/-!
Shallow embedding of `src/simple_mcp_server.py` (Simple Document MCP Server):
the document cache, format extractors, language classifier wrapper, substring
search with context highlighting, corpus statistics, and the content lookup
handler. Python strings are modelled as lists of Unicode codepoints; Python
dicts keyed by strings as insertion-ordered association lists with unique keys.
-/

namespace SimpleMCP

/-- Python strings modelled as lists of Unicode codepoints. -/
abbrev PyStr := List Nat

/-- Codepoints of a Lean string literal; used to build concrete inputs. -/
def py (s : String) : PyStr := s.toList.map Char.toNat

/-- ASCII case of Python `str.lower`, one codepoint at a time
(`A`..`Z` map to `a`..`z`). -/
def lowerCp (c : Nat) : Nat := if 65 ≤ c ∧ c ≤ 90 then c + 32 else c

/-- Python `s.lower()` (ASCII fragment). -/
def pyLower (s : PyStr) : PyStr := s.map lowerCp

/-- Python whitespace test for `str.strip` (space, tab, LF, VT, FF, CR). -/
def isPySpaceCp (c : Nat) : Bool := c = 32 ∨ (9 ≤ c ∧ c ≤ 13)

/-- Python `s.strip()`: drop leading and trailing whitespace. -/
def pyStrip (s : PyStr) : PyStr :=
  ((s.dropWhile isPySpaceCp).reverse.dropWhile isPySpaceCp).reverse

/-- Whether `sub` occurs in `hay` starting at index `i`. -/
def occursAt (hay sub : PyStr) (i : Nat) : Bool := sub.isPrefixOf (hay.drop i)

/-- Recursion worker for `pyFind`; the fuel argument bounds how many
positions remain to inspect and is structural so the kernel can evaluate. -/
def pyFindAux (hay sub : PyStr) : Nat → Nat → Option Nat
  | 0, _ => none
  | fuel + 1, start =>
    if hay.length < start then none
    else if occursAt hay sub start then some start
    else pyFindAux hay sub fuel (start + 1)

/-- Python `hay.find(sub, start)`: the least index `i` with
`start ≤ i ≤ hay.length` at which `sub` occurs, `none` when there is none
(Python returns `-1`). -/
def pyFind (hay sub : PyStr) (start : Nat) : Option Nat :=
  pyFindAux hay sub (hay.length + 1 - start) start

/-- Recursion worker for `occListFrom`, with the same fuel as `pyFindAux`. -/
def occListFromAux (hay sub : PyStr) : Nat → Nat → List Nat
  | 0, _ => []
  | fuel + 1, start =>
    if hay.length < start then []
    else if occursAt hay sub start then
      start :: occListFromAux hay sub fuel (start + 1)
    else occListFromAux hay sub fuel (start + 1)

/-- All indices `i ≥ start` (up to `hay.length`) at which `sub` occurs in
`hay`, in increasing order; overlapping occurrences are all listed. -/
def occListFrom (hay sub : PyStr) (start : Nat) : List Nat :=
  occListFromAux hay sub (hay.length + 1 - start) start

/-- Python slice `s[a:b]` for `0 ≤ a ≤ b` (both clamped to the length). -/
def pySlice (s : PyStr) (a b : Nat) : PyStr := (s.take b).drop a

/-- Recursion worker for `pyReplace` with a non-empty pattern `o :: os`; the
fuel is the length of the remaining text, kept structural so the kernel can
evaluate. -/
def pyReplaceFuel (o : Nat) (os new : PyStr) : Nat → PyStr → PyStr
  | _, [] => []
  | 0, _ :: _ => []
  | fuel + 1, c :: rest =>
    if (o :: os).isPrefixOf (c :: rest)
    then new ++ pyReplaceFuel o os new fuel (rest.drop os.length)
    else c :: pyReplaceFuel o os new fuel rest

/-- Python `s.replace(old, new)` for non-empty `old = o :: os`: every
non-overlapping occurrence, scanned left to right. -/
def pyReplaceAux (o : Nat) (os new : PyStr) (s : PyStr) : PyStr :=
  pyReplaceFuel o os new s.length s

/-- Python `s.replace(old, new)`: replaces every non-overlapping occurrence
of `old`, left to right; with empty `old`, `new` is inserted before every
character and at the end. -/
def pyReplace (s old new : PyStr) : PyStr :=
  match old with
  | [] => new ++ (s.map (fun c => c :: new)).flatten
  | o :: os => pyReplaceAux o os new s

/-- Recursion worker for `pySplitOn` with a non-empty separator, fuelled
like `pyReplaceFuel`. -/
def pySplitFuel (o : Nat) (os : PyStr) : Nat → PyStr → List PyStr
  | _, [] => [[]]
  | 0, s => [s]
  | fuel + 1, c :: rest =>
    if (o :: os).isPrefixOf (c :: rest)
    then [] :: pySplitFuel o os fuel (rest.drop os.length)
    else
      match pySplitFuel o os fuel rest with
      | [] => [[c]]
      | p :: ps => (c :: p) :: ps

/-- Greedy left-to-right split of `s` on the non-empty separator `o :: os`
(the pieces between the occurrences `pyReplaceAux` replaces). -/
def pySplitAux (o : Nat) (os : PyStr) (s : PyStr) : List PyStr :=
  pySplitFuel o os s.length s

/-- Pieces of `s` between the non-overlapping occurrences of the non-empty
separator `old` (compare Python `s.split(old)`). -/
def pySplitOn (s old : PyStr) : List PyStr :=
  match old with
  | [] => [s]
  | o :: os => pySplitAux o os s

/-- Record cached per successfully processed file
(the `DocumentInfo` dataclass). -/
structure DocumentInfo where
  path : PyStr
  filename : PyStr
  content : PyStr
  language : PyStr
  file_type : PyStr
  size : Nat
  last_modified : Int
deriving Repr, DecidableEq

/-- The document cache `self.document_cache`: a Python dict from path to
record, modelled as an insertion-ordered association list with unique keys. -/
abbrev Cache := List (PyStr × DocumentInfo)

/-- Python `dict.values()` in insertion order. -/
def cacheValues (cache : Cache) : List DocumentInfo := cache.map Prod.snd

/-- Python `cache[k] = v` on a unique-key association list: update in place
when the key is present, append otherwise. -/
def dictInsert : Cache → PyStr → DocumentInfo → Cache
  | [], k, v => [(k, v)]
  | kv :: rest, k, v =>
    if kv.1 = k then (k, v) :: rest else kv :: dictInsert rest k v

/-- Python `m[k] = m.get(k, 0) + 1` on a counting dict. -/
def dictIncr : List (PyStr × Nat) → PyStr → List (PyStr × Nat)
  | [], k => [(k, 1)]
  | kv :: rest, k =>
    if kv.1 = k then (kv.1, kv.2 + 1) :: rest else kv :: dictIncr rest k

/-- Python `m.get(k, 0)` on a counting dict. -/
def dictGet : List (PyStr × Nat) → PyStr → Nat
  | [], _ => 0
  | kv :: rest, k => if kv.1 = k then kv.2 else dictGet rest k

/-- ASCII case of the regex class `\w` (letters, digits, underscore). -/
def isWordCp (c : Nat) : Bool :=
  (48 ≤ c ∧ c ≤ 57) ∨ (65 ≤ c ∧ c ≤ 90) ∨ (97 ≤ c ∧ c ≤ 122) ∨ c = 95

/-- The cleaning step of `detect_language`:
`re.sub(r'[^\w\s]', '', text)` keeps word characters (`\w`) and whitespace
(`\s`, the same set as `str.strip`'s) only. -/
def cleanForDetect (s : PyStr) : PyStr :=
  s.filter (fun c => isWordCp c || isPySpaceCp c)

/-- `SimpleDocumentProcessor.detect_language`. The statistical detector
(`langdetect.detect`, an external library) is a parameter; it may raise,
modelled as `Except Unit`. The guard invokes it only when the cleaned,
stripped text is longer than 20 characters; any exception is caught and
mapped to `"unknown"`. -/
def detect_language (det : PyStr → Except Unit PyStr) (text : PyStr) : PyStr :=
  let clean := cleanForDetect text
  if 20 < (pyStrip clean).length then
    match det clean with
    | .ok detected => detected
    | .error _ => py "unknown"
  else py "unknown"

/-- One cell of a table of a Word document (`cell.text` already extracted). -/
structure DocxCell where
  text : PyStr
deriving Repr, DecidableEq

/-- One row of a table of a Word document. -/
structure DocxRow where
  cells : List DocxCell
deriving Repr, DecidableEq

/-- One table of a Word document. -/
structure DocxTable where
  rows : List DocxRow
deriving Repr, DecidableEq

/-- The parts of a parsed Word document that
`extract_text_from_docx` reads: paragraph texts and tables. -/
structure DocxDocument where
  paragraphs : List PyStr
  tables : List DocxTable
deriving Repr, DecidableEq

/-- `SimpleDocumentProcessor.extract_text_from_docx` on a successfully parsed
document: paragraph texts each followed by a newline, then for every table,
row by row, each cell's text followed by a single space and each row closed
by a newline; the result is stripped. -/
def extract_text_from_docx (doc : DocxDocument) : PyStr :=
  let text := doc.paragraphs.foldl (fun acc p => acc ++ p ++ py "\n") []
  let text := doc.tables.foldl (fun acc tbl =>
    tbl.rows.foldl (fun acc2 row =>
      (row.cells.foldl (fun acc3 cell => acc3 ++ cell.text ++ py " ") acc2)
        ++ py "\n") acc) text
  pyStrip text

/-- Serialization of one docx table row as the code produces it: each cell's
text followed by one space, the row closed by a newline. -/
def docxRowText (row : DocxRow) : PyStr :=
  (row.cells.map (fun cell => cell.text ++ py " ")).flatten ++ py "\n"

/-- Serialization of one docx table: its rows' serializations concatenated. -/
def docxTableText (tbl : DocxTable) : PyStr :=
  (tbl.rows.map docxRowText).flatten

/-- The amended C3 description of docx extraction: paragraphs each on their
own line, then all tables' rows (cells space-terminated, rows
newline-terminated), the whole stripped. -/
def docxAmendedText (doc : DocxDocument) : PyStr :=
  pyStrip ((doc.paragraphs.map (fun p => p ++ py "\n")).flatten
    ++ (doc.tables.map docxTableText).flatten)

/-- Bytes of a file, each in `0..255`. -/
abbrev Bytes := List Nat

/-- Whether a byte is a UTF-8 continuation byte (`0x80..0xBF`). -/
def utf8Cont (b : Nat) : Bool := 128 ≤ b ∧ b ≤ 191

/-- Strict UTF-8 decoding to codepoints (models Python's `utf-8` codec:
rejects overlong forms, surrogates and codepoints above `0x10FFFF`). -/
def utf8Decode : Bytes → Option (List Nat)
  | [] => some []
  | b :: rest =>
    if b ≤ 127 then (utf8Decode rest).map (b :: ·)
    else if 194 ≤ b ∧ b ≤ 223 then
      match rest with
      | b2 :: rest2 =>
        if utf8Cont b2 then
          (utf8Decode rest2).map (((b - 192) * 64 + (b2 - 128)) :: ·)
        else none
      | [] => none
    else if 224 ≤ b ∧ b ≤ 239 then
      match rest with
      | b2 :: b3 :: rest3 =>
        if (if b = 224 then 160 ≤ b2 ∧ b2 ≤ 191
            else if b = 237 then 128 ≤ b2 ∧ b2 ≤ 159
            else utf8Cont b2 = true) ∧ utf8Cont b3 = true then
          (utf8Decode rest3).map
            (((b - 224) * 4096 + (b2 - 128) * 64 + (b3 - 128)) :: ·)
        else none
      | _ => none
    else if 240 ≤ b ∧ b ≤ 244 then
      match rest with
      | b2 :: b3 :: b4 :: rest4 =>
        if (if b = 240 then 144 ≤ b2 ∧ b2 ≤ 191
            else if b = 244 then 128 ≤ b2 ∧ b2 ≤ 143
            else utf8Cont b2 = true) ∧ utf8Cont b3 = true ∧ utf8Cont b4 = true
        then
          (utf8Decode rest4).map
            (((b - 240) * 262144 + (b2 - 128) * 4096
              + (b3 - 128) * 64 + (b4 - 128)) :: ·)
        else none
      | _ => none
    else none

/-- Pair bytes into 16-bit units, little-endian; odd byte counts fail
(Python raises "truncated data"). -/
def utf16PairsLE : Bytes → Option (List Nat)
  | [] => some []
  | [_] => none
  | b1 :: b2 :: rest => (utf16PairsLE rest).map ((b1 + 256 * b2) :: ·)

/-- Pair bytes into 16-bit units, big-endian; odd byte counts fail. -/
def utf16PairsBE : Bytes → Option (List Nat)
  | [] => some []
  | [_] => none
  | b1 :: b2 :: rest => (utf16PairsBE rest).map ((256 * b1 + b2) :: ·)

/-- Combine 16-bit units into codepoints: a high surrogate must be followed
by a low surrogate; lone surrogates fail. -/
def utf16Combine : List Nat → Option (List Nat)
  | [] => some []
  | u :: rest =>
    if 55296 ≤ u ∧ u ≤ 56319 then
      match rest with
      | u2 :: rest2 =>
        if 56320 ≤ u2 ∧ u2 ≤ 57343 then
          (utf16Combine rest2).map
            ((65536 + (u - 55296) * 1024 + (u2 - 56320)) :: ·)
        else none
      | [] => none
    else if 56320 ≤ u ∧ u ≤ 57343 then none
    else (utf16Combine rest).map (u :: ·)

/-- Python's `utf-16` codec: a leading byte-order mark selects the byte
order and is consumed; without one the native order is assumed (modelled
little-endian). -/
def utf16Decode (bs : Bytes) : Option (List Nat) :=
  match bs with
  | 255 :: 254 :: rest => (utf16PairsLE rest).bind utf16Combine
  | 254 :: 255 :: rest => (utf16PairsBE rest).bind utf16Combine
  | _ => (utf16PairsLE bs).bind utf16Combine

/-- Python's `latin-1` codec: every byte is its own codepoint, so decoding
never fails. -/
def latin1Decode (bs : Bytes) : PyStr := bs

/-- Try decoders in order, returning the first success
(a failed decode is a caught `UnicodeDecodeError`, and the loop continues). -/
def tryEncodings : List (Bytes → Option PyStr) → Bytes → Option PyStr
  | [], _ => none
  | d :: rest, bs =>
    match d bs with
    | some t => some t
    | none => tryEncodings rest bs

/-- `SimpleDocumentProcessor.extract_text_from_txt` on the bytes of a
readable file: try `utf-8`, `utf-16`, `latin-1`, `shift_jis`, `cp932` in
order and return the first successful decoding, or `""` when all fail. The
`shift_jis` and `cp932` codecs are external library tables, passed here as
parameters. -/
def extract_text_from_txt (sjisDecode cp932Decode : Bytes → Option PyStr)
    (bs : Bytes) : PyStr :=
  match tryEncodings [utf8Decode, utf16Decode,
      fun b => some (latin1Decode b), sjisDecode, cp932Decode] bs with
  | some t => t
  | none => []

/-- Final component of a path (Python `Path.name`): the part after the last
`/` (codepoint 47). -/
def pathName (p : PyStr) : PyStr :=
  ((p.reverse.takeWhile (fun c => ¬ c = 47)).reverse)

/-- Python `Path.suffix`: with `name` the final component and `i` the index
of its last dot, `name[i:]` when `0 < i < len(name) - 1`, else `""`. -/
def pathSuffixOf (p : PyStr) : PyStr :=
  let name := pathName p
  match ((List.range name.length).filter
      (fun i => name.getD i 0 = 46 ∧ 0 < i ∧ i < name.length - 1)).getLast? with
  | some i => name.drop i
  | none => []

/-- One file on disk as the scan sees it. `extracted` is the text the
matching `extractor_func` returns for this file (`[]` models an extraction
error or a file with no text): the extractors read the filesystem and
external parsing libraries, so their per-file output is an oracle field. -/
structure FileEntry where
  path : PyStr
  extracted : PyStr
  size : Nat
  mtime : Int
deriving Repr, DecidableEq

/-- The `extractors` dispatch table of `process_document`: lower-cased
extension to human-readable file-type label. -/
def extractorTable : List (PyStr × PyStr) :=
  [(py ".pdf", py "PDF"), (py ".docx", py "Word Document"),
   (py ".xlsx", py "Excel Spreadsheet"), (py ".txt", py "Text File")]

/-- `SimpleDocumentProcessor.process_document`: `none` (and an unchanged
cache) when the file does not exist, has an unsupported extension or yields
no text; otherwise builds the record, stores it in the cache keyed by the
path, and returns it. `det` is the language detector, `fs` the filesystem
contents. -/
def process_document (det : PyStr → Except Unit PyStr) (fs : List FileEntry)
    (cache : Cache) (path : PyStr) : Cache × Option DocumentInfo :=
  match fs.find? (fun f => f.path = path) with
  | none => (cache, none)
  | some f =>
    let ext := pyLower (pathSuffixOf path)
    match extractorTable.find? (fun e => e.1 = ext) with
    | none => (cache, none)
    | some entry =>
      let text := f.extracted
      if text = [] then (cache, none)
      else
        let doc : DocumentInfo :=
          { path := path, filename := pathName path, content := text,
            language := detect_language det text, file_type := entry.2,
            size := f.size, last_modified := f.mtime }
        (dictInsert cache path doc, some doc)

/-- The supported extensions checked by `scan_documents`. -/
def supported_extensions : List PyStr :=
  [py ".pdf", py ".docx", py ".xlsx", py ".txt"]

/-- The loop of `scan_documents` over the recursive directory listing:
process each file with a supported extension, collecting the records of the
successful ones in order. -/
def scanLoop (det : PyStr → Except Unit PyStr) (fs : List FileEntry) :
    List FileEntry → Cache → Cache × List DocumentInfo
  | [], cache => (cache, [])
  | f :: rest, cache =>
    if supported_extensions.contains (pyLower (pathSuffixOf f.path)) then
      match process_document det fs cache f.path with
      | (cache2, some doc) =>
        let out := scanLoop det fs rest cache2
        (out.1, doc :: out.2)
      | (cache2, none) => scanLoop det fs rest cache2
    else scanLoop det fs rest cache

/-- `SimpleDocumentProcessor.scan_documents`: walk the directory listing
`fs` and process every supported file, returning the updated cache and the
records processed in this pass. -/
def scan_documents (det : PyStr → Except Unit PyStr) (fs : List FileEntry)
    (cache : Cache) : Cache × List DocumentInfo :=
  scanLoop det fs fs cache

/-- One search result dict of `search_documents`. -/
structure SearchMatch where
  filename : PyStr
  path : PyStr
  language : PyStr
  file_type : PyStr
  context : PyStr
  position : Nat
  match_number : Nat
  total_matches : Nat
  size : Nat
deriving Repr, DecidableEq

/-- The `while True` match-collection loop of `search_documents`: find the
next occurrence from `start`, record it, resume at `pos + 1`, and break at 5
matches. The loop appends one position per iteration and breaks at 5, so
fuel 5 from an empty accumulator is never exhausted early. -/
def collectLoop (contentLower queryLower : PyStr) :
    Nat → Nat → List Nat → List Nat
  | 0, _, acc => acc
  | fuel + 1, start, acc =>
    match pyFind contentLower queryLower start with
    | none => acc
    | some pos =>
      let acc2 := acc ++ [pos]
      if 5 ≤ acc2.length then acc2
      else collectLoop contentLower queryLower fuel (pos + 1) acc2

/-- The match positions `search_documents` collects for one document. -/
def collectMatches (contentLower queryLower : PyStr) : List Nat :=
  collectLoop contentLower queryLower 5 0 []

/-- Highlighting step of `search_documents`:
`context.replace(matched, "**" ++ matched ++ "**")`. -/
def highlight (context matched : PyStr) : PyStr :=
  pyReplace context matched (py "**" ++ matched ++ py "**")

/-- One result dict: context window of 150 characters on either side of the
match sliced from the original-case content, the matched substring
highlighted, with 1-based match number. -/
def buildMatch (doc : DocumentInfo) (qlen pos i total : Nat) : SearchMatch :=
  let contextStart := pos - 150
  let contextEnd := min doc.content.length (pos + qlen + 150)
  let context := pySlice doc.content contextStart contextEnd
  let matched := pySlice doc.content pos (pos + qlen)
  { filename := doc.filename, path := doc.path, language := doc.language,
    file_type := doc.file_type, context := highlight context matched,
    position := pos, match_number := i + 1, total_matches := total,
    size := doc.size }

/-- The inner `for i, pos in enumerate(matches)` loop: emit one result per
position and break as soon as `maxResults` results have accumulated. -/
def emitLoop (doc : DocumentInfo) (qlen total maxResults : Nat) :
    List (Nat × Nat) → List SearchMatch → List SearchMatch
  | [], acc => acc
  | (i, pos) :: rest, acc =>
    let acc2 := acc ++ [buildMatch doc qlen pos i total]
    if maxResults ≤ acc2.length then acc2
    else emitLoop doc qlen total maxResults rest acc2

/-- The outer `for doc_info in self.document_cache.values()` loop of
`search_documents`, with the trailing `if len(results) >= max_results:
break` after each document. -/
def searchLoop (query : PyStr) (maxResults : Nat) :
    List DocumentInfo → List SearchMatch → List SearchMatch
  | [], acc => acc
  | doc :: rest, acc =>
    let ms := collectMatches (pyLower doc.content) (pyLower query)
    let acc2 :=
      if ms = [] then acc
      else emitLoop doc query.length ms.length maxResults ms.enum acc
    if maxResults ≤ acc2.length then acc2
    else searchLoop query maxResults rest acc2

/-- `SimpleDocumentProcessor.search_documents`. -/
def search_documents (cache : Cache) (query : PyStr) (maxResults : Nat) :
    List SearchMatch :=
  searchLoop query maxResults (cacheValues cache) []

/-- The stats dict of `get_document_stats`: fields other than
`total_documents` are absent (`none`) when the cache is empty. -/
structure CorpusStats where
  total_documents : Nat
  total_size_bytes : Option Nat
  total_size_mb : Option ℚ
  languages : Option (List (PyStr × Nat))
  file_types : Option (List (PyStr × Nat))
  avg_size_kb : Option ℚ
deriving Repr, DecidableEq

/-- Rounding to 2 decimal places (Python `round(x, 2)`; the float tie-break
is modelled as exact rational rounding). -/
def round2 (q : ℚ) : ℚ := (round (q * 100) : ℚ) / 100

/-- `SimpleDocumentProcessor.get_document_stats`: only `total_documents = 0`
on an empty cache; otherwise the exact byte total, derived MB/KB figures and
per-language / per-file-type counts. -/
def get_document_stats (cache : Cache) : CorpusStats :=
  if cache = [] then
    { total_documents := 0, total_size_bytes := none, total_size_mb := none,
      languages := none, file_types := none, avg_size_kb := none }
  else
    let docs := cacheValues cache
    let total := (docs.map (fun d => d.size)).sum
    let languages := docs.foldl (fun m d => dictIncr m d.language) []
    let file_types := docs.foldl (fun m d => dictIncr m d.file_type) []
    { total_documents := docs.length,
      total_size_bytes := some total,
      total_size_mb := some (round2 ((total : ℚ) / 1024 / 1024)),
      languages := some languages,
      file_types := some file_types,
      avg_size_kb := some (round2 ((total : ℚ) / (docs.length : ℚ) / 1024)) }

/-- Result of the `get_document_content` tool handler: either the "not
found" error dict or the success dict with the record's fields. -/
inductive ContentResult where
  | failure (message : PyStr)
  | success (filename path language file_type : PyStr) (size : Nat)
      (content : PyStr)
deriving Repr, DecidableEq

/-- The `get_document_content` branch of `handle_call_tool`: scan the cached
records in order for the first one whose filename matches; a miss yields the
structured error result rather than an exception. -/
def get_document_content (cache : Cache) (filename : PyStr) : ContentResult :=
  match (cacheValues cache).find? (fun d => d.filename = filename) with
  | none =>
    .failure (py "Document '" ++ filename ++ py "' not found")
  | some doc =>
    .success doc.filename doc.path doc.language doc.file_type doc.size
      doc.content

/-- State-transformer form of `search_documents`: the method reads
`self.document_cache` and assigns to it nowhere, so the processor state it
leaves behind is the state it was given. -/
def search_documents_op (cache : Cache) (query : PyStr) (maxResults : Nat) :
    Cache × List SearchMatch :=
  (cache, search_documents cache query maxResults)

/-- State-transformer form of `get_document_stats`: the method reads
`self.document_cache` and assigns to it nowhere. -/
def get_document_stats_op (cache : Cache) : Cache × CorpusStats :=
  (cache, get_document_stats cache)

/-- Concrete cached record with content `"ab ab"`, for the scenarios below. -/
def abDoc : DocumentInfo :=
  { path := py "./documents/ab.txt", filename := py "ab.txt",
    content := py "ab ab", language := py "unknown",
    file_type := py "Text File", size := 5, last_modified := 0 }

/-- Concrete cached record whose content holds 100 occurrences of
`"test"`. -/
def manyTestDoc : DocumentInfo :=
  { path := py "./documents/many.txt", filename := py "many.txt",
    content := (List.replicate 100 (py "test")).flatten, language := py "en",
    file_type := py "Text File", size := 400, last_modified := 0 }

/-- Concrete stale record: cached by an earlier scan, its source file since
deleted from the directory. -/
def staleDoc : DocumentInfo :=
  { path := py "./documents/old.txt", filename := py "old.txt",
    content := py "stale", language := py "unknown",
    file_type := py "Text File", size := 5, last_modified := 0 }

/-- Concrete file present on disk during the re-scan of the C1 scenario. -/
def newFile : FileEntry :=
  { path := py "./documents/new.txt", extracted := py "fresh text",
    size := 10, mtime := 0 }

/-- Concrete Word document: no paragraphs, one table with one row holding
the two cells `"a"` and `"b"`. -/
def twoCellDocx : DocxDocument :=
  { paragraphs := [],
    tables := [{ rows := [{ cells := [{ text := py "a" }, { text := py "b" }] }] }] }

set_option maxRecDepth 100000

/-- Dropping a prefix never lengthens a list. -/
theorem length_dropWhile_le_self (p : Nat → Bool) (l : PyStr) :
    (l.dropWhile p).length ≤ l.length := by
  induction l with
  | nil => simp
  | cons c rest ih =>
    by_cases h : p c <;> simp [List.dropWhile_cons, h] <;> omega

/-- Stripping never lengthens a string. -/
theorem pyStrip_length_le (s : PyStr) : (pyStrip s).length ≤ s.length := by
  unfold pyStrip
  calc ((s.dropWhile isPySpaceCp).reverse.dropWhile isPySpaceCp).reverse.length
      = ((s.dropWhile isPySpaceCp).reverse.dropWhile isPySpaceCp).length := by
        simp
    _ ≤ (s.dropWhile isPySpaceCp).reverse.length :=
        length_dropWhile_le_self _ _
    _ = (s.dropWhile isPySpaceCp).length := by simp
    _ ≤ s.length := length_dropWhile_le_self _ _

/-- C9: the search and statistics operations never modify the document
cache: the processor state after either call is the state before it (their
method bodies read `self.document_cache` and contain no assignment to
it). -/
theorem C9_search_stats_pure :
    ∀ (cache : Cache) (query : PyStr) (maxResults : Nat),
      (search_documents_op cache query maxResults).1 = cache
    ∧ (get_document_stats_op cache).1 = cache :=
  fun _ _ _ => ⟨rfl, rfl⟩

/-- C6: when the punctuation-stripped text has fewer than 21 characters the
classifier answers `"unknown"` without consulting the underlying detector
(the result is the same for every detector), and a detector that raises is
caught and mapped to `"unknown"`. -/
theorem C6_short_text_unknown :
    (∀ (text : PyStr) (d1 d2 : PyStr → Except Unit PyStr),
        (cleanForDetect text).length < 21 →
        detect_language d1 text = py "unknown"
      ∧ detect_language d1 text = detect_language d2 text)
  ∧ (∀ (text : PyStr) (d : PyStr → Except Unit PyStr),
        (∀ s, d s = Except.error ()) → detect_language d text = py "unknown") := by
  constructor
  · intro text d1 d2 h
    have hle : (pyStrip (cleanForDetect text)).length ≤ (cleanForDetect text).length :=
      pyStrip_length_le _
    have hno : ¬ 20 < (pyStrip (cleanForDetect text)).length := by omega
    unfold detect_language
    simp [hno]
  · intro text d hd
    by_cases h : 20 < (pyStrip (cleanForDetect text)).length <;>
      simp [detect_language, h, hd]

/-- C6 witness: the two-character text `"Hi"` is classified `"unknown"`
even by a detector that would answer `"en"`. -/
theorem C6_short_text_unknown_witness :
    detect_language (fun _ => Except.ok (py "en")) (py "Hi") = py "unknown" :=
  (C6_short_text_unknown.1 (py "Hi") (fun _ => Except.ok (py "en"))
    (fun _ => Except.error ()) (by decide)).1

/-- C8: `get_document_content` answers the structured error result
`Document '<name>' not found` when no cached record carries the requested
filename, and the first matching record's fields when one does. -/
theorem C8_content_lookup :
    (∀ (cache : Cache) (name : PyStr),
        (∀ d ∈ cacheValues cache, ¬ d.filename = name) →
        get_document_content cache name =
          .failure (py "Document '" ++ name ++ py "' not found"))
  ∧ (∀ (cache : Cache) (name : PyStr) (doc : DocumentInfo),
        (cacheValues cache).find? (fun d => d.filename = name) = some doc →
        get_document_content cache name =
          .success doc.filename doc.path doc.language doc.file_type doc.size
            doc.content) := by
  constructor
  · intro cache name h
    unfold get_document_content
    have hn : (cacheValues cache).find? (fun d => d.filename = name) = none := by
      rw [List.find?_eq_none]
      intro d hd
      simp [h d hd]
    rw [hn]
  · intro cache name doc h
    unfold get_document_content
    rw [h]

/-- C8 witness: looking up `"zz.txt"` in a cache holding only `abDoc`
produces the structured "not found" result. -/
theorem C8_content_lookup_witness :
    get_document_content [(py "./documents/ab.txt", abDoc)] (py "zz.txt") =
      .failure (py "Document '" ++ py "zz.txt" ++ py "' not found") :=
  C8_content_lookup.1 [(py "./documents/ab.txt", abDoc)] (py "zz.txt")
    (by decide)

/-- Left fold that appends `f x` for each element equals the initial value
followed by the concatenation of the images. -/
theorem foldl_append_flatten {α : Type} (f : α → PyStr) :
    ∀ (l : List α) (init : PyStr),
      l.foldl (fun acc x => acc ++ f x) init = init ++ (l.map f).flatten := by
  intro l
  induction l with
  | nil => intro init; simp
  | cons x rest ih => intro init; simp [ih, List.append_assoc]

/-- C3 counterexample: the claim predicts the two cells `"a"`, `"b"` of a
docx table row serialize as `"a | b"` (space-padded pipe); the code joins
them as `"a b"` (each cell followed by a single space, then the row
stripped), so the claim is false on this document. -/
theorem C3_counterexample :
    extract_text_from_docx twoCellDocx = py "a b"
  ∧ ¬ extract_text_from_docx twoCellDocx = py "a | b" := by decide

/-- C3 amended: extracted docx text is the paragraph lines followed by
every table's rows, each cell's text followed by a single space (not a
space-padded pipe) and each row closed by a newline, the whole stripped;
table text comes after paragraph text. -/
theorem C3_amended_serialization :
    ∀ d : DocxDocument, extract_text_from_docx d = docxAmendedText d := by
  intro d
  unfold extract_text_from_docx docxAmendedText
  dsimp only
  have hpar : d.paragraphs.foldl (fun acc p => acc ++ p ++ py "\n") [] =
      (d.paragraphs.map (fun p => p ++ py "\n")).flatten := by
    have h := foldl_append_flatten (fun p => p ++ py "\n") d.paragraphs []
    simpa [List.append_assoc] using h
  have hrow : ∀ (row : DocxRow) (acc2 : PyStr),
      (row.cells.foldl (fun acc3 cell => acc3 ++ cell.text ++ py " ") acc2)
        ++ py "\n" = acc2 ++ docxRowText row := by
    intro row acc2
    have h := foldl_append_flatten (fun cell : DocxCell => cell.text ++ py " ")
      row.cells acc2
    simp only [docxRowText]
    rw [show (row.cells.foldl (fun acc3 cell => acc3 ++ cell.text ++ py " ") acc2)
        = (row.cells.foldl (fun acc3 cell => acc3 ++ (cell.text ++ py " ")) acc2) by
      simp [List.append_assoc]]
    rw [h, List.append_assoc]
  have htbl : ∀ (tbl : DocxTable) (acc : PyStr),
      tbl.rows.foldl (fun acc2 row =>
        (row.cells.foldl (fun acc3 cell => acc3 ++ cell.text ++ py " ") acc2)
          ++ py "\n") acc = acc ++ docxTableText tbl := by
    intro tbl acc
    have hcong : tbl.rows.foldl (fun acc2 row =>
        (row.cells.foldl (fun acc3 cell => acc3 ++ cell.text ++ py " ") acc2)
          ++ py "\n") acc =
        tbl.rows.foldl (fun acc2 row => acc2 ++ docxRowText row) acc := by
      apply List.foldl_ext
      intro a b hb
      exact hrow b a
    rw [hcong, foldl_append_flatten docxRowText tbl.rows acc, docxTableText]
  have htbls : d.tables.foldl (fun acc tbl =>
      tbl.rows.foldl (fun acc2 row =>
        (row.cells.foldl (fun acc3 cell => acc3 ++ cell.text ++ py " ") acc2)
          ++ py "\n") acc) ((d.paragraphs.map (fun p => p ++ py "\n")).flatten) =
      (d.paragraphs.map (fun p => p ++ py "\n")).flatten
        ++ (d.tables.map docxTableText).flatten := by
    have hcong : d.tables.foldl (fun acc tbl =>
        tbl.rows.foldl (fun acc2 row =>
          (row.cells.foldl (fun acc3 cell => acc3 ++ cell.text ++ py " ") acc2)
            ++ py "\n") acc) ((d.paragraphs.map (fun p => p ++ py "\n")).flatten) =
        d.tables.foldl (fun acc tbl => acc ++ docxTableText tbl)
          ((d.paragraphs.map (fun p => p ++ py "\n")).flatten) := by
      apply List.foldl_ext
      intro a b hb
      exact htbl b a
    rw [hcong, foldl_append_flatten docxTableText d.tables]
  rw [hpar, htbls]

/-- C10 counterexample: the two-byte file holding just a UTF-16 byte-order
mark is non-empty, yet the extractor returns empty text (the `utf-8` decode
fails, the `utf-16` codec consumes the mark and decodes to the empty
string), so "every readable non-empty file yields non-empty text" is
false. -/
theorem C10_counterexample :
    extract_text_from_txt (fun _ => none) (fun _ => none) [255, 254] = []
  ∧ ¬ ([255, 254] : Bytes) = [] := by decide

/-- C10 amended: `latin-1` decodes every byte sequence (each byte is its
codepoint), so some entry among the first three encodings always succeeds:
the "all encodings fail" branch is unreachable via decode errors and the
`shift_jis` / `cp932` entries are never consulted (the result does not
depend on them). A non-empty file may still decode to empty text (see the
counterexample), so non-empty output is not guaranteed. -/
theorem C10_latin1_total :
    (∀ bs : Bytes, latin1Decode bs = bs)
  ∧ (∀ (sjis1 cp1 sjis2 cp2 : Bytes → Option PyStr) (bs : Bytes),
      extract_text_from_txt sjis1 cp1 bs = extract_text_from_txt sjis2 cp2 bs)
  ∧ (∀ (sjis cp : Bytes → Option PyStr) (bs : Bytes), ∃ t : PyStr,
      tryEncodings [utf8Decode, utf16Decode, fun b => some (latin1Decode b)] bs
        = some t
    ∧ extract_text_from_txt sjis cp bs = t) := by
  refine ⟨fun _ => rfl, ?_, ?_⟩
  · intro sjis1 cp1 sjis2 cp2 bs
    rcases h8 : utf8Decode bs with _ | t8 <;>
      rcases h16 : utf16Decode bs with _ | t16 <;>
        simp [extract_text_from_txt, tryEncodings, h8, h16]
  · intro sjis cp bs
    rcases h8 : utf8Decode bs with _ | t8 <;>
      rcases h16 : utf16Decode bs with _ | t16 <;>
        simp [extract_text_from_txt, tryEncodings, h8, h16]

/-- ASCII lower-casing is idempotent. -/
theorem lowerCp_idem (c : Nat) : lowerCp (lowerCp c) = lowerCp c := by
  by_cases h : 65 ≤ c ∧ c ≤ 90
  · have h1 : lowerCp c = c + 32 := by simp [lowerCp, h]
    rw [h1]
    unfold lowerCp
    rw [if_neg (by omega)]
  · have h1 : lowerCp c = c := by simp [lowerCp, h]
    rw [h1]
    exact h1

/-- Lower-casing a string is idempotent. -/
theorem pyLower_idem (s : PyStr) : pyLower (pyLower s) = pyLower s := by
  unfold pyLower
  rw [List.map_map]
  apply List.map_congr_left
  intro c _
  simpa [Function.comp] using lowerCp_idem c

/-- Lower-casing preserves the length. -/
theorem pyLower_length (s : PyStr) : (pyLower s).length = s.length := by
  simp [pyLower]

/-- The search loop depends on the query only through its lower-cased form
and its length. -/
theorem searchLoop_query_congr (q q' : PyStr) (m : Nat)
    (hL : pyLower q = pyLower q') (hlen : q.length = q'.length) :
    ∀ (docs : List DocumentInfo) (acc : List SearchMatch),
      searchLoop q m docs acc = searchLoop q' m docs acc := by
  intro docs
  induction docs with
  | nil => intro acc; rfl
  | cons doc rest ih =>
    intro acc
    simp only [searchLoop, hL, hlen, ih]

/-- C5: search is case-insensitive: a query and its lower-cased form give
the same result list (in particular the same number of matches and the same
positions per document). -/
theorem C5_case_insensitive :
    ∀ (cache : Cache) (query : PyStr) (maxResults : Nat),
      search_documents cache query maxResults
        = search_documents cache (pyLower query) maxResults
    ∧ (search_documents cache query maxResults).length
        = (search_documents cache (pyLower query) maxResults).length := by
  intro cache query m
  have h : search_documents cache query m
      = search_documents cache (pyLower query) m := by
    unfold search_documents
    exact searchLoop_query_congr query (pyLower query) m
      (pyLower_idem query).symm (pyLower_length query).symm
      (cacheValues cache) []
  exact ⟨h, by rw [h]⟩

/-- Concatenating with a separator: unfolding one step for a two-or-more
element list. -/
theorem intercalate_cons_cons (sep a b : PyStr) (l : List PyStr) :
    List.intercalate sep (a :: b :: l)
      = a ++ sep ++ List.intercalate sep (b :: l) := by
  simp [List.intercalate, List.intersperse, List.append_assoc]

/-- The greedy split worker never returns an empty list of pieces. -/
theorem pySplitFuel_ne_nil (o : Nat) (os : PyStr) (fuel : Nat) (s : PyStr) :
    ¬ pySplitFuel o os fuel s = [] := by
  cases fuel with
  | zero => cases s <;> simp [pySplitFuel]
  | succ fuel =>
    cases s with
    | nil => simp [pySplitFuel]
    | cons c rest =>
      simp only [pySplitFuel]
      split
      · simp
      · split <;> simp

/-- Replacement rebuilds the string from the split pieces with `new`
between every adjacent pair: every non-overlapping occurrence of the
pattern is replaced (equal fuel on both sides). -/
theorem pyReplaceFuel_eq_intercalate (o : Nat) (os new : PyStr) :
    ∀ (fuel : Nat) (s : PyStr), s.length ≤ fuel →
      pyReplaceFuel o os new fuel s
        = List.intercalate new (pySplitFuel o os fuel s) := by
  intro fuel
  induction fuel with
  | zero =>
    intro s hs
    have hnil : s = [] := by
      cases s with
      | nil => rfl
      | cons c rest => simp at hs
    subst hnil
    simp [pyReplaceFuel, pySplitFuel, List.intercalate]
  | succ fuel ih =>
    intro s hs
    cases s with
    | nil => simp [pyReplaceFuel, pySplitFuel, List.intercalate]
    | cons c rest =>
      simp only [pyReplaceFuel, pySplitFuel]
      split
      · have hlen : (rest.drop os.length).length ≤ fuel := by
          simp only [List.length_drop]
          simp at hs
          omega
        rw [ih _ hlen]
        rcases h : pySplitFuel o os fuel (rest.drop os.length) with _ | ⟨p, ps⟩
        · exact absurd h (pySplitFuel_ne_nil o os fuel _)
        · rw [intercalate_cons_cons]
          simp
      · have hlen : rest.length ≤ fuel := by simp at hs; omega
        rcases h : pySplitFuel o os fuel rest with _ | ⟨p, ps⟩
        · exact absurd h (pySplitFuel_ne_nil o os fuel rest)
        · rw [ih rest hlen, h]
          cases ps with
          | nil => simp [List.intercalate]
          | cons p2 ps2 =>
            rw [intercalate_cons_cons, intercalate_cons_cons]
            simp [List.append_assoc]

/-- Python `replace` with a non-empty pattern equals re-joining the greedy
split pieces with the replacement text: every occurrence is replaced. -/
theorem pyReplace_eq_intercalate (s old new : PyStr) (h : ¬ old = []) :
    pyReplace s old new = List.intercalate new (pySplitOn s old) := by
  cases old with
  | nil => exact absurd rfl h
  | cons o os =>
    unfold pyReplace pySplitOn pyReplaceAux pySplitAux
    exact pyReplaceFuel_eq_intercalate o os new s.length s le_rfl

/-- C2 counterexample: for the document `"ab ab"` and query `"ab"`, both
results carry the context `"**ab** **ab**"`: the second literal occurrence
inside the window is also wrapped, while the claim predicts
`"**ab** ab"` for the first match (only the first occurrence marked). -/
theorem C2_counterexample :
    (search_documents [(py "./documents/ab.txt", abDoc)] (py "ab") 50).map
      (fun r => r.context) = [py "**ab** **ab**", py "**ab** **ab**"]
  ∧ ¬ (py "**ab** **ab**" = py "**ab** ab") := by decide

/-- C2 amended: the highlighting step wraps every non-overlapping literal
original-case occurrence of the matched substring inside the context window
(Python `str.replace` replaces all occurrences, not just the first): the
highlighted window is the greedy split of the window on the matched text,
re-joined with the wrapped text; concretely both occurrences of `"ab"` in
the window `"ab ab"` come out wrapped. -/
theorem C2_amended_highlight :
    (∀ context matched : PyStr, ¬ matched = [] →
        highlight context matched =
          List.intercalate (py "**" ++ matched ++ py "**")
            (pySplitOn context matched))
  ∧ (search_documents [(py "./documents/ab.txt", abDoc)] (py "ab") 50).map
      (fun r => r.context) = [py "**ab** **ab**", py "**ab** **ab**"] := by
  constructor
  · intro context matched h
    unfold highlight
    exact pyReplace_eq_intercalate context matched _ h
  · decide

/-- C2 witness: the amended highlighting equation evaluated on the concrete
window `"ab ab"` with matched text `"ab"`. -/
theorem C2_amended_highlight_witness :
    highlight (py "ab ab") (py "ab") =
      List.intercalate (py "**" ++ py "ab" ++ py "**")
        (pySplitOn (py "ab ab") (py "ab")) :=
  C2_amended_highlight.1 (py "ab ab") (py "ab") (by decide)

/-- One-step unfolding of `pyFind` in terms of itself (hides the fuel). -/
theorem pyFind_step (hay sub : PyStr) (start : Nat) :
    pyFind hay sub start =
      if hay.length < start then none
      else if occursAt hay sub start then some start
      else pyFind hay sub (start + 1) := by
  unfold pyFind
  by_cases h : hay.length < start
  · have h0 : hay.length + 1 - start = 0 := by omega
    rw [h0]
    simp [pyFindAux, h]
  · have h1 : hay.length + 1 - start = (hay.length + 1 - (start + 1)) + 1 := by
      omega
    rw [h1]
    simp [pyFindAux, h]

/-- One-step unfolding of `occListFrom` in terms of itself. -/
theorem occListFrom_step (hay sub : PyStr) (start : Nat) :
    occListFrom hay sub start =
      if hay.length < start then []
      else if occursAt hay sub start then
        start :: occListFrom hay sub (start + 1)
      else occListFrom hay sub (start + 1) := by
  unfold occListFrom
  by_cases h : hay.length < start
  · have h0 : hay.length + 1 - start = 0 := by omega
    rw [h0]
    simp [occListFromAux, h]
  · have h1 : hay.length + 1 - start = (hay.length + 1 - (start + 1)) + 1 := by
      omega
    rw [h1]
    simp [occListFromAux, h]

/-- The find worker returns the head of the occurrence-list worker. -/
theorem pyFindAux_eq_head (hay sub : PyStr) :
    ∀ (fuel start : Nat),
      pyFindAux hay sub fuel start
        = (occListFromAux hay sub fuel start).head? := by
  intro fuel
  induction fuel with
  | zero => intro start; rfl
  | succ fuel ih =>
    intro start
    simp only [pyFindAux, occListFromAux]
    split
    · rfl
    · split
      · rfl
      · exact ih (start + 1)

/-- `pyFind` returns the first occurrence position. -/
theorem pyFind_eq_head (hay sub : PyStr) (start : Nat) :
    pyFind hay sub start = (occListFrom hay sub start).head? :=
  pyFindAux_eq_head hay sub _ start

/-- When `find` reports no occurrence, the occurrence list is empty. -/
theorem occListFrom_eq_nil_of_find (hay sub : PyStr) (start : Nat)
    (h : pyFind hay sub start = none) : occListFrom hay sub start = [] := by
  have h2 := pyFind_eq_head hay sub start
  rw [h] at h2
  cases hocc : occListFrom hay sub start with
  | nil => rfl
  | cons a l => rw [hocc] at h2; simp at h2

/-- When `find` reports the occurrence `pos`, the occurrence list from
`start` is `pos` followed by the occurrences from `pos + 1` (fuelled
induction). -/
theorem occListFrom_cons_of_find (hay sub : PyStr) :
    ∀ (fuel start pos : Nat), hay.length + 1 - start ≤ fuel →
      pyFind hay sub start = some pos →
      occListFrom hay sub start = pos :: occListFrom hay sub (pos + 1) := by
  intro fuel
  induction fuel with
  | zero =>
    intro start pos hfuel hfind
    rw [pyFind_step] at hfind
    have hlt : hay.length < start := by omega
    simp [hlt] at hfind
  | succ fuel ih =>
    intro start pos hfuel hfind
    rw [pyFind_step] at hfind
    rw [occListFrom_step]
    by_cases h1 : hay.length < start
    · simp [h1] at hfind
    · rw [if_neg h1] at hfind ⊢
      by_cases h2 : occursAt hay sub start = true
      · rw [if_pos h2] at hfind ⊢
        have : start = pos := by simpa using hfind
        subst this
        rfl
      · rw [if_neg h2] at hfind ⊢
        exact ih (start + 1) pos (by omega) hfind

/-- Wrapper for `occListFrom_cons_of_find` with the canonical fuel. -/
theorem occListFrom_cons (hay sub : PyStr) (start pos : Nat)
    (h : pyFind hay sub start = some pos) :
    occListFrom hay sub start = pos :: occListFrom hay sub (pos + 1) :=
  occListFrom_cons_of_find hay sub (hay.length + 1 - start) start pos
    le_rfl h

/-- The collection loop of `search_documents` gathers exactly the first
occurrences (up to the per-document cap of 5 and the remaining fuel),
appended to the accumulator. -/
theorem collectLoop_eq_take (cl ql : PyStr) :
    ∀ (fuel start : Nat) (acc : List Nat), acc.length < 5 →
      collectLoop cl ql fuel start acc
        = acc ++ (occListFrom cl ql start).take (min fuel (5 - acc.length)) := by
  intro fuel
  induction fuel with
  | zero => intro start acc h; simp [collectLoop]
  | succ fuel ih =>
    intro start acc h
    simp only [collectLoop]
    rcases hf : pyFind cl ql start with _ | pos
    · rw [occListFrom_eq_nil_of_find cl ql start hf]
      simp
    · rw [occListFrom_cons cl ql start pos hf]
      dsimp only
      by_cases h5 : 5 ≤ (acc ++ [pos]).length
      · rw [if_pos h5]
        have h4 : acc.length = 4 := by simp at h5; omega
        have hmin : min (fuel + 1) (5 - acc.length) = 1 := by omega
        rw [hmin]
        simp
      · rw [if_neg h5]
        have hlt : (acc ++ [pos]).length < 5 := by omega
        rw [ih (pos + 1) (acc ++ [pos]) hlt]
        have hmin : min (fuel + 1) (5 - acc.length)
            = (min fuel (5 - (acc ++ [pos]).length)) + 1 := by
          simp at h5 ⊢
          omega
        rw [hmin, List.take_succ_cons]
        simp

/-- The matches collected per document are the first 5 (possibly
overlapping) occurrence positions of the query in the content. -/
theorem collectMatches_eq_take (cl ql : PyStr) :
    collectMatches cl ql = (occListFrom cl ql 0).take 5 := by
  unfold collectMatches
  rw [collectLoop_eq_take cl ql 5 0 [] (by simp)]
  simp

/-- The per-document emission loop never grows the result list past
`maxResults`. -/
theorem emitLoop_length_le (doc : DocumentInfo) (qlen total m : Nat) :
    ∀ (l : List (Nat × Nat)) (acc : List SearchMatch), acc.length < m →
      (emitLoop doc qlen total m l acc).length ≤ m := by
  intro l
  induction l with
  | nil =>
    intro acc h
    simp only [emitLoop]
    omega
  | cons ip rest ih =>
    intro acc h
    obtain ⟨i, pos⟩ := ip
    simp only [emitLoop]
    by_cases h2 : m ≤ (acc ++ [buildMatch doc qlen pos i total]).length
    · rw [if_pos h2]
      simp at h2 ⊢
      omega
    · rw [if_neg h2]
      apply ih
      simp at h2 ⊢
      omega

/-- The document loop never grows the result list past `maxResults`. -/
theorem searchLoop_length_le (q : PyStr) (m : Nat) :
    ∀ (docs : List DocumentInfo) (acc : List SearchMatch), acc.length < m →
      (searchLoop q m docs acc).length ≤ m := by
  intro docs
  induction docs with
  | nil =>
    intro acc h
    simp only [searchLoop]
    omega
  | cons doc rest ih =>
    intro acc h
    simp only [searchLoop]
    have hlen : (if collectMatches (pyLower doc.content) (pyLower q) = []
        then acc
        else emitLoop doc q.length
          (collectMatches (pyLower doc.content) (pyLower q)).length m
          (collectMatches (pyLower doc.content) (pyLower q)).enum acc).length
        ≤ m := by
      split
      · omega
      · exact emitLoop_length_le doc q.length _ m _ acc h
    by_cases hm : m ≤ (if collectMatches (pyLower doc.content) (pyLower q) = []
        then acc
        else emitLoop doc q.length
          (collectMatches (pyLower doc.content) (pyLower q)).length m
          (collectMatches (pyLower doc.content) (pyLower q)).enum acc).length
    · rw [if_pos hm]
      exact hlen
    · rw [if_neg hm]
      apply ih
      omega

/-- C4: search collects occurrence positions per document by resuming one
character past each match's start (overlapping occurrences are all
candidates — the collected list is exactly the first 5 of all, possibly
overlapping, occurrence positions), caps them at 5 per document, stops
emitting once `maxResults ≥ 1` results exist, and on a single cached
document holding 100 occurrences of `"test"`, `search("test", 3)` returns
exactly 3 matches. -/
theorem C4_search_limits :
    (∀ contentLower queryLower : PyStr,
        collectMatches contentLower queryLower
          = (occListFrom contentLower queryLower 0).take 5)
  ∧ (∀ contentLower queryLower : PyStr,
        (collectMatches contentLower queryLower).length ≤ 5)
  ∧ (∀ (cache : Cache) (query : PyStr) (maxResults : Nat), 1 ≤ maxResults →
        (search_documents cache query maxResults).length ≤ maxResults)
  ∧ (search_documents [(py "./documents/many.txt", manyTestDoc)]
      (py "test") 3).length = 3 := by
  refine ⟨collectMatches_eq_take, ?_, ?_, ?_⟩
  · intro cl ql
    rw [collectMatches_eq_take]
    simp only [List.length_take]
    omega
  · intro cache q m hm
    unfold search_documents
    exact searchLoop_length_le q m (cacheValues cache) [] (by simpa using hm)
  · decide

/-- C4 witness: the global cap applied to a concrete one-document cache
with `maxResults = 1`. -/
theorem C4_search_limits_witness :
    (search_documents [(py "./documents/ab.txt", abDoc)] (py "ab") 1).length
      ≤ 1 :=
  C4_search_limits.2.2.1 [(py "./documents/ab.txt", abDoc)] (py "ab") 1
    (by decide)

/-- Incrementing a key's counter raises exactly that key's count by one. -/
theorem dictGet_dictIncr (m : List (PyStr × Nat)) (kk k : PyStr) :
    dictGet (dictIncr m kk) k = dictGet m k + (if kk = k then 1 else 0) := by
  induction m with
  | nil =>
    by_cases h : kk = k <;> simp [dictIncr, dictGet, h]
  | cons kv rest ih =>
    by_cases h1 : kv.1 = kk
    · by_cases h2 : kv.1 = k
      · have hk : kk = k := by rw [← h1, h2]
        simp [dictIncr, dictGet, h1, h2, hk]
      · have hk : ¬ kk = k := by rw [← h1]; exact h2
        simp [dictIncr, dictGet, h1, h2, hk]
    · by_cases h2 : kv.1 = k
      · have h3 : ¬ k = kk := by rw [← h2]; exact h1
        have h4 : ¬ kk = k := fun hh => h3 hh.symm
        simp [dictIncr, dictGet, h1, h2, h3, h4]
      · simp [dictIncr, dictGet, h1, h2, ih]

/-- Folding the counting update over a document list counts exactly the
documents whose key matches. -/
theorem dictGet_foldl_incr (f : DocumentInfo → PyStr) (k : PyStr) :
    ∀ (docs : List DocumentInfo) (m : List (PyStr × Nat)),
      dictGet (docs.foldl (fun m d => dictIncr m (f d)) m) k
        = dictGet m k + (docs.filter (fun d => f d = k)).length := by
  intro docs
  induction docs with
  | nil => intro m; simp
  | cons d rest ih =>
    intro m
    simp only [List.foldl_cons]
    rw [ih, dictGet_dictIncr]
    by_cases h : f d = k <;> simp [List.filter_cons, h] <;> omega

/-- C7: an empty cache reports only `total_documents = 0` (all other fields
absent); a non-empty cache reports the exact byte total, the MB and average
KB figures derived from it by 2-decimal rounding, and language / file-type
tables whose counts are exactly the number of records with that key. -/
theorem C7_stats :
    get_document_stats [] =
      { total_documents := 0, total_size_bytes := none, total_size_mb := none,
        languages := none, file_types := none, avg_size_kb := none }
  ∧ (∀ cache : Cache, ¬ cache = [] →
      ∃ langs fts,
        get_document_stats cache =
          { total_documents := (cacheValues cache).length,
            total_size_bytes :=
              some ((cacheValues cache).map (fun d => d.size)).sum,
            total_size_mb := some (round2
              (((((cacheValues cache).map (fun d => d.size)).sum : ℕ) : ℚ)
                / 1024 / 1024)),
            languages := some langs,
            file_types := some fts,
            avg_size_kb := some (round2
              (((((cacheValues cache).map (fun d => d.size)).sum : ℕ) : ℚ)
                / ((cacheValues cache).length : ℚ) / 1024)) }
      ∧ (∀ k, dictGet langs k
            = ((cacheValues cache).filter (fun d => d.language = k)).length)
      ∧ (∀ k, dictGet fts k
            = ((cacheValues cache).filter (fun d => d.file_type = k)).length)) := by
  constructor
  · rfl
  · intro cache hne
    refine ⟨(cacheValues cache).foldl (fun m d => dictIncr m d.language) [],
            (cacheValues cache).foldl (fun m d => dictIncr m d.file_type) [],
            ?_, ?_, ?_⟩
    · unfold get_document_stats
      rw [if_neg hne]
    · intro k
      have h := dictGet_foldl_incr (fun d => d.language) k (cacheValues cache) []
      simpa [dictGet] using h
    · intro k
      have h := dictGet_foldl_incr (fun d => d.file_type) k (cacheValues cache) []
      simpa [dictGet] using h

/-- C7 witness: the stats of a one-document cache report the exact size
sum. -/
theorem C7_stats_witness :
    (get_document_stats [(py "./documents/ab.txt", abDoc)]).total_size_bytes
      = some ((cacheValues [(py "./documents/ab.txt", abDoc)]).map
          (fun d => d.size)).sum := by
  obtain ⟨langs, fts, heq, -, -⟩ :=
    C7_stats.2 [(py "./documents/ab.txt", abDoc)] (by decide)
  rw [heq]

/-- Inserting a key makes it a key of the dict. -/
theorem dictInsert_mem_keys (cache : Cache) (k : PyStr) (v : DocumentInfo) :
    k ∈ (dictInsert cache k v).map Prod.fst := by
  induction cache with
  | nil => simp [dictInsert]
  | cons kv rest ih =>
    by_cases h : kv.1 = k <;> simp [dictInsert, h, ih]

/-- Inserting never removes a key. -/
theorem dictInsert_keys_mono (cache : Cache) (k : PyStr) (v : DocumentInfo)
    (k' : PyStr) (h : k' ∈ cache.map Prod.fst) :
    k' ∈ (dictInsert cache k v).map Prod.fst := by
  induction cache with
  | nil => simp at h
  | cons kv rest ih =>
    by_cases hh : kv.1 = k
    · simp only [dictInsert, if_pos hh]
      simp only [List.map_cons, List.mem_cons] at h ⊢
      rcases h with h | h
      · left; rw [h, hh]
      · right; exact h
    · simp only [dictInsert, if_neg hh]
      simp only [List.map_cons, List.mem_cons] at h ⊢
      rcases h with h | h
      · left; exact h
      · right; exact ih h

/-- `process_document` either rejects the file and leaves the cache alone,
or returns a record keyed by the file's path and inserts it. -/
theorem process_document_spec (det : PyStr → Except Unit PyStr)
    (fs : List FileEntry) (cache : Cache) (path : PyStr) :
    ((process_document det fs cache path).2 = none
      ∧ (process_document det fs cache path).1 = cache)
  ∨ (∃ doc, (process_document det fs cache path).2 = some doc
      ∧ doc.path = path
      ∧ (process_document det fs cache path).1 = dictInsert cache path doc) := by
  unfold process_document
  cases fs.find? (fun f => f.path = path) with
  | none => left; exact ⟨rfl, rfl⟩
  | some f =>
    dsimp only
    cases extractorTable.find? (fun e => e.1 = pyLower (pathSuffixOf path)) with
    | none => left; exact ⟨rfl, rfl⟩
    | some entry =>
      dsimp only
      by_cases h : f.extracted = []
      · rw [if_pos h]
        left; exact ⟨rfl, rfl⟩
      · rw [if_neg h]
        right; exact ⟨_, rfl, rfl, rfl⟩

/-- Processing a file never removes a cache key. -/
theorem process_document_keys_mono (det : PyStr → Except Unit PyStr)
    (fs : List FileEntry) (cache : Cache) (path k : PyStr)
    (h : k ∈ cache.map Prod.fst) :
    k ∈ (process_document det fs cache path).1.map Prod.fst := by
  rcases process_document_spec det fs cache path with ⟨-, h2⟩ | ⟨doc, -, -, h2⟩
  · rw [h2]; exact h
  · rw [h2]; exact dictInsert_keys_mono cache path doc k h

/-- The scan loop never removes a cache key. -/
theorem scanLoop_keys_mono (det : PyStr → Except Unit PyStr)
    (fs : List FileEntry) :
    ∀ (l : List FileEntry) (cache : Cache) (k : PyStr),
      k ∈ cache.map Prod.fst →
      k ∈ (scanLoop det fs l cache).1.map Prod.fst := by
  intro l
  induction l with
  | nil => intro cache k h; exact h
  | cons f rest ih =>
    intro cache k h
    simp only [scanLoop]
    split
    · rcases hp : process_document det fs cache f.path with ⟨cache2, r⟩
      have hk2 : k ∈ cache2.map Prod.fst := by
        have hmono := process_document_keys_mono det fs cache f.path k h
        rw [hp] at hmono
        exact hmono
      cases r with
      | some doc => exact ih cache2 k hk2
      | none => exact ih cache2 k hk2
    · exact ih cache k h

/-- Every record returned by the scan loop ends up keyed in the final
cache. -/
theorem scanLoop_docs_cached (det : PyStr → Except Unit PyStr)
    (fs : List FileEntry) :
    ∀ (l : List FileEntry) (cache : Cache) (d : DocumentInfo),
      d ∈ (scanLoop det fs l cache).2 →
      d.path ∈ (scanLoop det fs l cache).1.map Prod.fst := by
  intro l
  induction l with
  | nil => intro cache d h; simp [scanLoop] at h
  | cons f rest ih =>
    intro cache d h
    simp only [scanLoop] at h ⊢
    by_cases hs : supported_extensions.contains (pyLower (pathSuffixOf f.path))
      = true
    · rw [if_pos hs] at h ⊢
      rcases hp : process_document det fs cache f.path with ⟨cache2, r⟩
      rw [hp] at h
      have hspec := process_document_spec det fs cache f.path
      rw [hp] at hspec
      cases r with
      | some doc =>
        dsimp only at h ⊢
        rw [List.mem_cons] at h
        rcases h with h | h
        · rcases hspec with ⟨h1, -⟩ | ⟨doc2, h1, h2, h3⟩
          · simp at h1
          · have hd2 : doc = doc2 := by simpa using h1
            have h4 : cache2 = dictInsert cache f.path doc2 := by
              simpa using h3
            have hmem : d.path ∈ cache2.map Prod.fst := by
              rw [h, hd2, h4, h2]
              exact dictInsert_mem_keys _ _ _
            exact scanLoop_keys_mono det fs rest cache2 d.path hmem
        · exact ih cache2 d h
      | none =>
        dsimp only at h ⊢
        exact ih cache2 d h
    · rw [if_neg hs] at h ⊢
      exact ih cache d h

/-- C1 counterexample: a cache holding a record for the deleted file
`old.txt` survives a scan of a directory that now holds only `new.txt`:
after the scan the cache still has the stale `old.txt` entry, although the
pass processed only `new.txt` — the cache is merged, not replaced. -/
theorem C1_counterexample :
    (scan_documents (fun _ => Except.error ()) [newFile]
        [(py "./documents/old.txt", staleDoc)]).2.map (fun d => d.path)
      = [py "./documents/new.txt"]
  ∧ (scan_documents (fun _ => Except.error ()) [newFile]
        [(py "./documents/old.txt", staleDoc)]).1.map Prod.fst
      = [py "./documents/old.txt", py "./documents/new.txt"] := by decide

/-- C1 amended: `scan_documents` merges into the cache instead of replacing
it: every record successfully processed in the pass is keyed in the cache
afterwards, and every previously cached path (including paths of deleted or
now-failing files) is still a key afterwards. -/
theorem C1_merge_semantics (det : PyStr → Except Unit PyStr)
    (fs : List FileEntry) (cache : Cache) :
    (∀ d ∈ (scan_documents det fs cache).2,
        d.path ∈ (scan_documents det fs cache).1.map Prod.fst)
  ∧ (∀ k ∈ cache.map Prod.fst,
        k ∈ (scan_documents det fs cache).1.map Prod.fst) := by
  constructor
  · intro d hd
    exact scanLoop_docs_cached det fs fs cache d hd
  · intro k hk
    exact scanLoop_keys_mono det fs fs cache k hk

/-- C1 witness: in the concrete deleted-file scenario the stale key is
still present after the scan. -/
theorem C1_merge_semantics_witness :
    py "./documents/old.txt" ∈ (scan_documents (fun _ => Except.error ())
      [newFile] [(py "./documents/old.txt", staleDoc)]).1.map Prod.fst :=
  (C1_merge_semantics (fun _ => Except.error ()) [newFile]
    [(py "./documents/old.txt", staleDoc)]).2 (py "./documents/old.txt")
    (by decide)

end SimpleMCP
